import Mathlib

/-!
Verification of the TLV (Type-Length-Value) codec and record-list library.

The embedding models the Go source faithfully:
* bytes are naturals (Go's `byte` guarantees values below 256);
* `int32` values are `Int`s, with explicit wrap-around (`wrap32`, `toU32`)
  where the source converts between `int` and `int32`;
* the byte-stream source/sink (`bytes.Buffer` in the source's `FromBytes`,
  `ToBytes` and the list codec) is a `List Nat` consumed from the front /
  appended at the back; a single buffer read returns
  `min (requested) (available)` bytes, and reading the 4-byte length field
  through `binary.Read`/`io.ReadFull` yields end-of-file when no byte is
  available and an unexpected-end-of-file error when 1-3 bytes are;
* `WriteObject` is additionally modelled against an arbitrary sink
  (`Writer`), since the source takes any `io.Writer`: a write returns a
  byte count and an optional error, and `binary.Write` ignores the count;
* the runtime panic of `make([]byte, n)` for negative `n` (reachable in
  `ReadObject` when the decoded length is negative) is the explicit
  outcome `panicked`.
-/

namespace Tlv

/-- The `object` struct: one TLV record (`typ byte`, `len int32`,
`val []byte`). -/
structure Object where
  typ : Nat
  len : Int
  val : List Nat
deriving Repr, DecidableEq

/-- Go's `int32(n)` conversion of a non-negative `int` `n`: reduce modulo
2^32 and reinterpret as a signed 32-bit value. -/
def wrap32 (n : Nat) : Int :=
  if n % 4294967296 < 2147483648 then ((n % 4294967296 : Nat) : Int)
  else ((n % 4294967296 : Nat) : Int) - 4294967296

/-- The unsigned 32-bit pattern of an `int32` value (two's complement). -/
def toU32 (i : Int) : Nat := (i % 4294967296).toNat

/-- Encoding done by `binary.Write(w, binary.BigEndian, length)`: the four
big-endian bytes of an `int32`. -/
def int32Bytes (i : Int) : List Nat :=
  [toU32 i / 16777216 % 256, toU32 i / 65536 % 256, toU32 i / 256 % 256,
    toU32 i % 256]

/-- Decoding done by `binary.Read(r, binary.BigEndian, length)`: four
big-endian bytes read as a signed `int32`. -/
def sint32 (b0 b1 b2 b3 : Nat) : Int :=
  let u := b0 * 16777216 + b1 * 65536 + b2 * 256 + b3
  if u < 2147483648 then (u : Int) else (u : Int) - 4294967296

/-- The error values the source can produce or propagate:
`io.EOF`, `io.ErrUnexpectedEOF`, `ErrTLVRead`, `ErrTLVWrite`,
`ErrTypeNotFound`. -/
inductive GoErr where
  | eof
  | unexpectedEOF
  | tlvRead
  | tlvWrite
  | typeNotFound
deriving Repr, DecidableEq

/-- Function `Equal(tlv1, tlv2)`: structural equality of two possibly-nil TLV
objects — nil equals only nil, otherwise type, length and value must all
agree. -/
def Equal (t1 t2 : Option Object) : Bool :=
  match t1, t2 with
  | none, _ => t2.isNone
  | some _, none => false
  | some a, some b => a.typ == b.typ && a.len == b.len && a.val == b.val

/-- Function `New(typ, val)`: build a record; `len` is `int32(len(val))` and the
value is copied into a fresh buffer of `len` bytes (`make` + `copy`, the
copy filling `min len (val.length)` bytes).  `none` models the runtime
panic of `make([]byte, n)` for negative `n` (only reachable when
`len(val)` overflows `int32`). -/
def New (typ : Nat) (val : List Nat) : Option Object :=
  let L := wrap32 val.length
  if L < 0 then none
  else some { typ := typ, len := L, val := val.take L.toNat }

/-- Outcome of `ReadObject`: a record plus the unread remainder of the
stream, or an error (with the partially-filled record the source returns
alongside `ErrTLVRead`), or the `make` panic on a negative length. -/
inductive ReadObjectResult where
  | ok (o : Object) (rest : List Nat)
  | fail (e : GoErr) (o : Option Object) (rest : List Nat)
  | panicked
deriving Repr, DecidableEq

/-- Function `ReadObject(r)` over a byte stream: read 1 type byte, then 4 length
bytes big-endian (end-of-file with no byte available, unexpected
end-of-file with 1-3), then `make([]byte, length)` (panic if negative) and
one buffer read of up to `length` bytes; a short value read returns the
record together with `ErrTLVRead`, and a zero-length value read succeeds
with no bytes requested. -/
def ReadObject (s : List Nat) : ReadObjectResult :=
  match s with
  | [] => .fail .eof none []
  | t :: r1 =>
    match r1 with
    | b0 :: b1 :: b2 :: b3 :: r2 =>
      let L := sint32 b0 b1 b2 b3
      if L < 0 then .panicked
      else
        let n := L.toNat
        if n = 0 then .ok { typ := t, len := L, val := [] } r2
        else if r2.isEmpty then .fail .eof none r2
        else
          let l := min n r2.length
          if l = n then
            .ok { typ := t, len := L, val := r2.take l } (r2.drop l)
          else
            .fail .tlvRead
              (some { typ := t, len := L,
                      val := r2.take l ++ List.replicate (n - l) 0 })
              (r2.drop l)
    | [] => .fail .eof none []
    | _ :: _ => .fail .unexpectedEOF none []

/-- Function `FromBytes(data)`: decode one record from an in-memory buffer. -/
def FromBytes (data : List Nat) : ReadObjectResult := ReadObject data

/-- An abstract `io.Writer`: a write takes the sink state and the bytes,
and returns the new state, the count written and an optional error. -/
structure Writer (σ : Type) where
  write : σ → List Nat → σ × Nat × Option GoErr

/-- Function `WriteObject(tlv, w)` against an abstract sink: write the type byte,
then the four length bytes, then the value, stopping at the first error;
`binary.Write` ignores the write count, and the value write yields
`ErrTLVWrite` when `int32(count)` differs from the record's length. -/
def WriteObjectW {σ : Type} (W : Writer σ) (o : Object) (s : σ) :
    σ × Option GoErr :=
  let r1 := W.write s [o.typ]
  match r1.2.2 with
  | some e => (r1.1, some e)
  | none =>
    let r2 := W.write r1.1 (int32Bytes o.len)
    match r2.2.2 with
    | some e => (r2.1, some e)
    | none =>
      let r3 := W.write r2.1 o.val
      match r3.2.2 with
      | some e => (r3.1, some e)
      | none =>
        (r3.1, if wrap32 r3.2.1 = o.len then none else some .tlvWrite)

/-- The buffer sink, modelling `bytes.Buffer`: every write appends all of
its bytes and never fails. -/
def bufWriter : Writer (List Nat) :=
  ⟨fun s p => (s ++ p, p.length, none)⟩

/-- Function `WriteObject` specialised to the in-memory buffer sink. -/
def WriteObject (o : Object) (acc : List Nat) : List Nat × Option GoErr :=
  WriteObjectW bufWriter o acc

/-- Function `ToBytes(tlv)`: encode into a fresh buffer, returning the buffer's
bytes together with the write error (both are returned by the source). -/
def ToBytes (o : Object) : List Nat × Option GoErr :=
  WriteObject o []

/-- The exact wire image of a record: type byte, four length bytes,
value bytes. -/
def encTLV (o : Object) : List Nat :=
  o.typ :: (int32Bytes o.len ++ o.val)

/-- Outcome of the list decoder `Read`: the accumulated records plus the
final error (`none` after a clean end-of-stream), or a propagated panic. -/
inductive ReadListResult where
  | res (objs : List Object) (err : Option GoErr)
  | panicked
deriving Repr, DecidableEq

/-- The loop of `Read(r)`: call `ReadObject` repeatedly, appending each
record; stop at the first error, translating `io.EOF` to success. -/
def ReadAux (s : List Nat) (acc : List Object) : ReadListResult :=
  match h : ReadObject s with
  | .panicked => .panicked
  | .fail e _ _ => .res acc (if e = .eof then none else some e)
  | .ok o rest => ReadAux rest (acc ++ [o])
termination_by s.length
decreasing_by
  have key : ∀ (m : List Nat) (o : Object) (r : List Nat),
      ReadObject m = .ok o r → r.length < m.length := by
    intro m o r hm
    rcases m with - | ⟨t, - | ⟨b0, - | ⟨b1, - | ⟨b2, - | ⟨b3, r2⟩⟩⟩⟩⟩ <;>
      simp only [ReadObject] at hm
    · exact absurd hm (by simp)
    · exact absurd hm (by simp)
    · exact absurd hm (by simp)
    · exact absurd hm (by simp)
    · exact absurd hm (by simp)
    · split at hm
      · exact absurd hm (by simp)
      · split at hm
        · obtain ⟨-, hr⟩ := ReadObjectResult.ok.inj hm
          subst hr
          simp only [List.length_cons]
          omega
        · split at hm
          · exact absurd hm (by simp)
          · split at hm
            · obtain ⟨-, hr⟩ := ReadObjectResult.ok.inj hm
              subst hr
              simp only [List.length_drop, List.length_cons]
              omega
            · exact absurd hm (by simp)
  exact key s o rest h

/-- Function `Read(r)`: build a list from a byte stream, starting empty. -/
def Read (s : List Nat) : ReadListResult := ReadAux s []

/-- Method `(*List).Write(w)` to a buffer sink: serialize the records in
order, stopping at and returning the first error. -/
def WriteList (l : List Object) (acc : List Nat) : List Nat × Option GoErr :=
  match l with
  | [] => (acc, none)
  | o :: rest =>
    let r := WriteObject o acc
    match r.2 with
    | some e => (r.1, some e)
    | none => WriteList rest r.1

/-- Method `(*List).Get(typ)`: linear scan from the front, first record of the
requested type, else `ErrTypeNotFound`. -/
def Get (l : List Object) (typ : Nat) : Except GoErr Object :=
  match l with
  | [] => .error .typeNotFound
  | o :: rest => if o.typ == typ then .ok o else Get rest typ

/-- Method `(*List).GetAll(typ)`: all records of the requested type, in list
order. -/
def GetAll (l : List Object) (typ : Nat) : List Object :=
  match l with
  | [] => []
  | o :: rest =>
    if o.typ == typ then o :: GetAll rest typ else GetAll rest typ

/-- One inner pass of the removal loops: scan from the front and delete
the first element satisfying `p`; `none` when no element does. -/
def removeFirstBy (p : Object → Bool) : List Object → Option (List Object)
  | [] => none
  | o :: rest =>
    if p o then some rest else (removeFirstBy p rest).map (o :: ·)

/-- The outer removal loop shared by `Remove` and `RemoveObject`: repeat
the single-deletion pass until it finds nothing, counting deletions. -/
def removeAllBy (p : Object → Bool) (l : List Object) : List Object × Nat :=
  match h : removeFirstBy p l with
  | none => (l, 0)
  | some l' =>
    let r := removeAllBy p l'
    (r.1, r.2 + 1)
termination_by l.length
decreasing_by
  have key : ∀ (m m' : List Object),
      removeFirstBy p m = some m' → m'.length < m.length := by
    intro m
    induction m with
    | nil => intro m' hm; simp [removeFirstBy] at hm
    | cons a as ih =>
      intro m' hm
      cases hpa : p a
      · simp [removeFirstBy, hpa] at hm
        obtain ⟨x, hx, hxm⟩ := hm
        have := ih x hx
        subst hxm
        simp only [List.length_cons]
        omega
      · simp [removeFirstBy, hpa] at hm
        subst hm
        simp only [List.length_cons]
        omega
  exact key l l' h

/-- Method `(*List).Remove(typ)`: remove every record of the given type,
returning the remaining list and the count removed. -/
def Remove (l : List Object) (typ : Nat) : List Object × Nat :=
  removeAllBy (fun o => o.typ == typ) l

/-- Method `(*List).RemoveObject(obj)`: remove every record structurally equal
to `obj`, returning the remaining list and the count removed. -/
def RemoveObject (l : List Object) (obj : Option Object) :
    List Object × Nat :=
  removeAllBy (fun o => Equal (some o) obj) l

/-- Method `AddObject`: append a record at the tail. -/
def AddObject (l : List Object) (o : Object) : List Object := l ++ [o]

/-- A record whose `int32` length field equals its value's byte length
(the invariant every constructed or successfully decoded record enjoys). -/
def WFRec (o : Object) : Prop :=
  o.len = (o.val.length : Int) ∧ o.val.length < 2147483648

instance (o : Object) : Decidable (WFRec o) := by
  unfold WFRec; infer_instance

/-! ### Supporting lemmas -/

theorem wrap32_small {n : Nat} (h : n < 2147483648) : wrap32 n = n := by
  unfold wrap32
  rw [Nat.mod_eq_of_lt (by omega)]
  simp [h]

theorem toU32_ofNat {n : Nat} (h : n < 4294967296) : toU32 (n : Int) = n := by
  unfold toU32
  rw [Int.emod_eq_of_lt (by positivity) (by exact_mod_cast h)]
  simp

theorem sint32_digits {n : Nat} (h : n < 2147483648) :
    sint32 (n / 16777216 % 256) (n / 65536 % 256) (n / 256 % 256) (n % 256)
      = (n : Int) := by
  unfold sint32
  have hu : n / 16777216 % 256 * 16777216 + n / 65536 % 256 * 65536 +
      n / 256 % 256 * 256 + n % 256 = n := by omega
  simp only [hu]
  simp [h]

theorem int32Bytes_ofNat {n : Nat} (h : n < 4294967296) :
    int32Bytes (n : Int) =
      [n / 16777216 % 256, n / 65536 % 256, n / 256 % 256, n % 256] := by
  simp [int32Bytes, toU32_ofNat h]

theorem ReadObject_enc {o : Object} (hwf : WFRec o) (rest : List Nat) :
    ReadObject (encTLV o ++ rest) = .ok o rest := by
  obtain ⟨t, L0, v⟩ := o
  obtain ⟨h1, h2⟩ := hwf
  simp only at h1 h2
  subst h1
  have henc : encTLV ⟨t, (v.length : Int), v⟩ ++ rest =
      t :: v.length / 16777216 % 256 :: v.length / 65536 % 256 ::
        v.length / 256 % 256 :: v.length % 256 :: (v ++ rest) := by
    simp [encTLV, int32Bytes_ofNat (by omega : v.length < 4294967296)]
  rw [henc]
  simp only [ReadObject, sint32_digits h2]
  cases v with
  | nil => simp
  | cons b bs =>
    have hlen : ((b :: bs).length : Int).toNat = (b :: bs).length := by simp
    have hpos : ¬((b :: bs).length : Int) < 0 := by omega
    have hne : (b :: bs).length ≠ 0 := by simp
    have hmin : min (b :: bs).length (b :: bs ++ rest).length
        = (b :: bs).length := by
      simp only [List.length_append]
      omega
    simp only [hpos, if_false, hlen, hne, if_neg, hmin,
      List.isEmpty_iff, List.cons_append, reduceCtorEq,
      List.take_left, List.drop_left, if_true]
    simp

theorem WriteObject_buf (o : Object) (acc : List Nat) :
    WriteObject o acc =
      (acc ++ encTLV o,
        if wrap32 o.val.length = o.len then none else some .tlvWrite) := by
  simp [WriteObject, WriteObjectW, bufWriter, encTLV, List.append_assoc]

theorem WriteObject_wf {o : Object} (hwf : WFRec o) (acc : List Nat) :
    WriteObject o acc = (acc ++ encTLV o, none) := by
  rw [WriteObject_buf]
  rw [wrap32_small hwf.2, hwf.1]
  simp

theorem ToBytes_wf {o : Object} (hwf : WFRec o) :
    ToBytes o = (encTLV o, none) := by
  rw [ToBytes, WriteObject_wf hwf]
  simp

theorem WriteList_wf {l : List Object} (hwf : ∀ o ∈ l, WFRec o) :
    ∀ acc, WriteList l acc = (acc ++ (l.map encTLV).flatten, none) := by
  induction l with
  | nil => intro acc; simp [WriteList]
  | cons o rest ih =>
    intro acc
    have ho : WFRec o := hwf o (by simp)
    rw [WriteList, WriteObject_wf ho]
    simp only
    rw [ih (fun x hx => hwf x (by simp [hx]))]
    simp [List.append_assoc]

theorem ReadAux_ok {s : List Nat} {o : Object} {rest : List Nat}
    (h : ReadObject s = .ok o rest) (acc : List Object) :
    ReadAux s acc = ReadAux rest (acc ++ [o]) := by
  rw [ReadAux]
  split
  · rename_i heq
    rw [h] at heq
    cases heq
  · rename_i e o' r' heq
    rw [h] at heq
    cases heq
  · rename_i o' r' heq
    rw [h] at heq
    obtain ⟨ho, hr⟩ := ReadObjectResult.ok.inj heq
    subst ho
    subst hr
    rfl

theorem ReadAux_fail {s : List Nat} {e : GoErr} {o' : Option Object}
    {r' : List Nat} (h : ReadObject s = .fail e o' r') (acc : List Object) :
    ReadAux s acc = .res acc (if e = .eof then none else some e) := by
  rw [ReadAux]
  split
  · rename_i heq
    rw [h] at heq
    cases heq
  · rename_i e2 o2 r2 heq
    rw [h] at heq
    obtain ⟨he, -, -⟩ := ReadObjectResult.fail.inj heq
    subst he
    rfl
  · rename_i o2 r2 heq
    rw [h] at heq
    cases heq

theorem ReadAux_encList {l : List Object} (hwf : ∀ o ∈ l, WFRec o) :
    ∀ t acc, ReadAux ((l.map encTLV).flatten ++ t) acc = ReadAux t (acc ++ l) := by
  induction l with
  | nil => intro t acc; simp
  | cons o rest ih =>
    intro t acc
    have ho : WFRec o := hwf o (by simp)
    have hstep : (((o :: rest).map encTLV).flatten ++ t) =
        encTLV o ++ ((rest.map encTLV).flatten ++ t) := by
      simp [List.append_assoc]
    rw [hstep, ReadAux_ok (ReadObject_enc ho _) acc,
      ih (fun x hx => hwf x (by simp [hx]))]
    simp

theorem Read_encList {l : List Object} (hwf : ∀ o ∈ l, WFRec o) :
    Read ((l.map encTLV).flatten) = .res l none := by
  have h1 := ReadAux_encList hwf [] []
  rw [List.append_nil] at h1
  rw [Read, h1,
    ReadAux_fail (show ReadObject [] = .fail .eof none [] from rfl) ([] ++ l)]
  simp

theorem removeFirstBy_len {p : Object → Bool} :
    ∀ {m m' : List Object}, removeFirstBy p m = some m' → m'.length < m.length := by
  intro m
  induction m with
  | nil => intro m' hm; simp [removeFirstBy] at hm
  | cons a as ih =>
    intro m' hm
    cases hpa : p a
    · simp [removeFirstBy, hpa] at hm
      obtain ⟨x, hx, hxm⟩ := hm
      have := ih hx
      subst hxm
      simp only [List.length_cons]
      omega
    · simp [removeFirstBy, hpa] at hm
      subst hm
      simp only [List.length_cons]
      omega

theorem removeFirstBy_none {p : Object → Bool} :
    ∀ {m : List Object}, removeFirstBy p m = none ↔ ∀ o ∈ m, p o = false := by
  intro m
  induction m with
  | nil => simp [removeFirstBy]
  | cons a as ih =>
    cases hpa : p a
    · simp [removeFirstBy, hpa, ih]
    · simp [removeFirstBy, hpa]

theorem removeFirstBy_filters {p : Object → Bool} :
    ∀ {m m' : List Object}, removeFirstBy p m = some m' →
      m'.filter (fun o => !p o) = m.filter (fun o => !p o) ∧
      (m'.filter p).length + 1 = (m.filter p).length := by
  intro m
  induction m with
  | nil => intro m' hm; simp [removeFirstBy] at hm
  | cons a as ih =>
    intro m' hm
    cases hpa : p a
    · simp [removeFirstBy, hpa] at hm
      obtain ⟨x, hx, hxm⟩ := hm
      obtain ⟨hf, hc⟩ := ih hx
      subst hxm
      constructor
      · simp [List.filter_cons, hpa, hf]
      · simp [List.filter_cons, hpa, hc]
    · simp [removeFirstBy, hpa] at hm
      subst hm
      constructor
      · simp [List.filter_cons, hpa]
      · simp [List.filter_cons, hpa]

theorem removeAllBy_none {p : Object → Bool} {l : List Object}
    (h : removeFirstBy p l = none) : removeAllBy p l = (l, 0) := by
  rw [removeAllBy]
  split
  · rfl
  · rename_i l' heq
    rw [h] at heq
    cases heq

theorem removeAllBy_step {p : Object → Bool} {l l' : List Object}
    (h : removeFirstBy p l = some l') :
    removeAllBy p l = ((removeAllBy p l').1, (removeAllBy p l').2 + 1) := by
  rw [removeAllBy]
  split
  · rename_i heq
    rw [h] at heq
    cases heq
  · rename_i l2 heq
    rw [h] at heq
    obtain hl := Option.some.inj heq
    subst hl
    rfl

theorem removeAllBy_spec (p : Object → Bool) :
    ∀ (n : Nat) (l : List Object), l.length ≤ n →
      removeAllBy p l = (l.filter (fun o => !p o), (l.filter p).length) := by
  intro n
  induction n with
  | zero =>
    intro l hl
    have : l = [] := by
      cases l with
      | nil => rfl
      | cons a as => simp at hl
    subst this
    rw [removeAllBy_none (by simp [removeFirstBy])]
    simp
  | succ k ih =>
    intro l hl
    cases h : removeFirstBy p l with
    | none =>
      have hall := removeFirstBy_none.mp h
      have hfil : List.filter (fun o => !p o) l = l :=
        List.filter_eq_self.mpr (by intro a ha; simp [hall a ha])
      have hnil : List.filter p l = [] :=
        List.filter_eq_nil_iff.mpr (by intro a ha; simp [hall a ha])
      rw [removeAllBy_none h, hfil, hnil]
      rfl
    | some l' =>
      rw [removeAllBy_step h]
      have hlen := removeFirstBy_len h
      rw [ih l' (by omega)]
      obtain ⟨hf, hc⟩ := removeFirstBy_filters h
      simp [hf, hc]

theorem removeAllBy_filter (p : Object → Bool) (l : List Object) :
    removeAllBy p l = (l.filter (fun o => !p o), (l.filter p).length) :=
  removeAllBy_spec p l.length l le_rfl

theorem Get_not_found {l : List Object} {t : Nat} (h : ∀ o ∈ l, o.typ ≠ t) :
    Get l t = .error .typeNotFound := by
  induction l with
  | nil => rfl
  | cons o rest ih =>
    rw [Get]
    rw [if_neg (by simpa using h o (by simp))]
    exact ih fun x hx => h x (by simp [hx])

theorem Get_first {pre : List Object} {o : Object} {post : List Object}
    {t : Nat} (ho : o.typ = t) (hpre : ∀ x ∈ pre, x.typ ≠ t) :
    Get (pre ++ o :: post) t = .ok o := by
  induction pre with
  | nil =>
    rw [List.nil_append, Get, if_pos (by simpa using ho)]
  | cons a as ih =>
    rw [List.cons_append, Get,
      if_neg (by simpa using hpre a (by simp))]
    exact ih fun x hx => hpre x (by simp [hx])

theorem GetAll_filter (l : List Object) (t : Nat) :
    GetAll l t = l.filter (fun o => o.typ == t) := by
  induction l with
  | nil => rfl
  | cons o rest ih =>
    rw [GetAll, List.filter_cons]
    cases hot : (o.typ == t)
    · simp [hot, ih]
    · simp [hot, ih]

theorem sint32_range {b0 b1 b2 b3 : Nat} (h0 : b0 < 256) (h1 : b1 < 256)
    (h2 : b2 < 256) (h3 : b3 < 256) :
    -2147483648 ≤ sint32 b0 b1 b2 b3 ∧ sint32 b0 b1 b2 b3 < 2147483648 := by
  refine ⟨?_, ?_⟩ <;>
    simp only [sint32] <;>
    split <;>
    omega

theorem wrap32_cases (n : Nat) :
    (wrap32 n = ((n % 4294967296 : Nat) : Int) ∧ n % 4294967296 < 2147483648)
      ∨ wrap32 n < 0 := by
  unfold wrap32
  split
  · rename_i hlt
    exact Or.inl ⟨rfl, hlt⟩
  · rename_i hge
    refine Or.inr ?_
    omega

theorem New_wf {typ : Nat} {val : List Nat} {o : Object}
    (h : New typ val = some o) : WFRec o := by
  simp only [New] at h
  split at h
  · exact absurd h (by simp)
  · rename_i hneg
    obtain ho := Option.some.inj h
    subst ho
    rcases wrap32_cases val.length with ⟨heq, hlt⟩ | hbad
    · refine ⟨?_, ?_⟩
      · simp only [List.length_take, heq]
        omega
      · simp only [List.length_take, heq]
        omega
    · exact absurd hbad hneg

theorem ReadObject_ok_wf {s : List Nat} {o : Object} {rest : List Nat}
    (hb : ∀ b ∈ s, b < 256) (h : ReadObject s = .ok o rest) : WFRec o := by
  rcases s with - | ⟨t, - | ⟨b0, - | ⟨b1, - | ⟨b2, - | ⟨b3, r2⟩⟩⟩⟩⟩ <;>
    simp only [ReadObject] at h
  · exact absurd h (by simp)
  · exact absurd h (by simp)
  · exact absurd h (by simp)
  · exact absurd h (by simp)
  · exact absurd h (by simp)
  · have hrange := sint32_range (hb b0 (by simp)) (hb b1 (by simp))
      (hb b2 (by simp)) (hb b3 (by simp))
    split at h
    · exact absurd h (by simp)
    · rename_i hneg
      split at h
      · rename_i hzero
        obtain ⟨ho, -⟩ := ReadObjectResult.ok.inj h
        subst ho
        simp only [WFRec, List.length_nil]
        omega
      · split at h
        · exact absurd h (by simp)
        · split at h
          · rename_i hmin
            obtain ⟨ho, -⟩ := ReadObjectResult.ok.inj h
            subst ho
            simp only [WFRec, List.length_take]
            omega
          · exact absurd h (by simp)

/-! ### The claims -/

/-- C1: for every (type, value) pair whose value length is representable as
a signed 32-bit integer, `New` builds the record with that type, that value
and length equal to the value's length, and decoding the bytes produced by
encoding it (`FromBytes` after `ToBytes`) succeeds, consumes the whole
buffer, and returns a structurally equal record. -/
theorem claim_c1_roundtrip (typ : Nat) (val : List Nat)
    (h : val.length < 2147483648) :
    New typ val = some ⟨typ, (val.length : Int), val⟩ ∧
      FromBytes (ToBytes ⟨typ, (val.length : Int), val⟩).1 =
        .ok ⟨typ, (val.length : Int), val⟩ [] := by
  have hwf : WFRec ⟨typ, (val.length : Int), val⟩ := ⟨rfl, h⟩
  constructor
  · unfold New
    rw [wrap32_small h]
    rw [if_neg (by omega)]
    simp
  · rw [ToBytes_wf hwf]
    show FromBytes (encTLV _) = _
    rw [FromBytes]
    have hro := ReadObject_enc hwf []
    rwa [List.append_nil] at hro

/-- Witness for C1 at type 1, value [2, 3]. -/
theorem claim_c1_roundtrip_witness :
    ([2, 3] : List Nat).length < 2147483648 ∧
      (New 1 [2, 3] = some ⟨1, (([2, 3] : List Nat).length : Int), [2, 3]⟩ ∧
        FromBytes (ToBytes ⟨1, (([2, 3] : List Nat).length : Int), [2, 3]⟩).1 =
          .ok ⟨1, (([2, 3] : List Nat).length : Int), [2, 3]⟩ []) :=
  ⟨by decide, claim_c1_roundtrip 1 [2, 3] (by decide)⟩

/-- C2: for every sequence of well-formed records, the list `Write`
serializes them in order into their concatenated wire images with no
error, and `Read` over exactly those bytes returns, with no error, a list
equal to the original sequence (same length, and record by record the same
type, length and value). -/
theorem claim_c2_list_roundtrip (l : List Object) (hwf : ∀ o ∈ l, WFRec o) :
    WriteList l [] = ((l.map encTLV).flatten, none) ∧
      Read ((l.map encTLV).flatten) = .res l none := by
  constructor
  · rw [WriteList_wf hwf []]
    simp
  · exact Read_encList hwf

/-- Witness for C2 at a two-record list. -/
theorem claim_c2_list_roundtrip_witness :
    (∀ o ∈ [(⟨1, 1, [7]⟩ : Object), ⟨2, 0, []⟩], WFRec o) ∧
      (WriteList [(⟨1, 1, [7]⟩ : Object), ⟨2, 0, []⟩] [] =
          (([(⟨1, 1, [7]⟩ : Object), ⟨2, 0, []⟩].map encTLV).flatten, none) ∧
        Read (([(⟨1, 1, [7]⟩ : Object), ⟨2, 0, []⟩].map encTLV).flatten) =
          .res [(⟨1, 1, [7]⟩ : Object), ⟨2, 0, []⟩] none) :=
  ⟨by decide, claim_c2_list_roundtrip _ (by decide)⟩

/-- C3 counterexample: one complete record (type 1, length 1, value [2])
followed by exactly one byte of a second record's header.  The second
`ReadObject` call consumes the type byte and then gets a bare end-of-file
from the length read, which `Read` translates to a nil error — the claim's
required non-nil error does not appear, and this mid-record end of stream
is indistinguishable from a clean boundary. -/
theorem claim_c3_counterexample :
    Read [1, 0, 0, 0, 1, 2, 3] = .res [⟨1, 1, [2]⟩] none := by
  rw [Read,
    ReadAux_ok
      (show ReadObject [1, 0, 0, 0, 1, 2, 3] = .ok ⟨1, 1, [2]⟩ [3] by decide)
      [],
    ReadAux_fail (show ReadObject [3] = .fail .eof none [] by decide)]
  decide

/-- C3 (amended): after one complete well-formed record, a truncated second
header with 2, 3 or 4 of its 5 bytes present makes `Read` return exactly
the one record together with a non-nil error (the unexpected-end-of-file
from the length read); a clean end of stream at the record boundary yields
a nil error; but a truncated header of exactly 1 byte (the type byte
alone) also yields a nil error, because the length read reports a bare
end-of-file that `Read` cannot distinguish from a boundary end-of-file. -/
theorem claim_c3_amended (r : Object) (hwf : WFRec r) (h : List Nat)
    (hlen2 : 2 ≤ h.length) (hlen4 : h.length ≤ 4) :
    Read ((ToBytes r).1 ++ h) = .res [r] (some .unexpectedEOF) ∧
      Read (ToBytes r).1 = .res [r] none ∧
      (∀ b : Nat, Read ((ToBytes r).1 ++ [b]) = .res [r] none) := by
  have h1 : (ToBytes r).1 = encTLV r := by rw [ToBytes_wf hwf]
  rw [h1]
  refine ⟨?_, ?_, ?_⟩
  · rw [Read, ReadAux_ok (ReadObject_enc hwf h) []]
    have hro : ReadObject h = .fail .unexpectedEOF none [] := by
      rcases h with - | ⟨t, - | ⟨x1, - | ⟨x2, - | ⟨x3, - | ⟨x4, tail⟩⟩⟩⟩⟩
      · simp at hlen2
      · simp at hlen2
      · rfl
      · rfl
      · rfl
      · simp only [List.length_cons] at hlen4
        omega
    rw [ReadAux_fail hro]
    simp
  · have hnil : encTLV r = encTLV r ++ [] := by simp
    rw [Read, hnil, ReadAux_ok (ReadObject_enc hwf []) [],
      ReadAux_fail (show ReadObject [] = .fail .eof none [] from rfl)]
    simp
  · intro b
    rw [Read, ReadAux_ok (ReadObject_enc hwf [b]) [],
      ReadAux_fail (show ReadObject [b] = .fail .eof none [] from rfl)]
    simp

/-- Witness for the amended C3 at record (1, 1, [2]) and a 2-byte
truncated header. -/
theorem claim_c3_amended_witness :
    WFRec ⟨1, 1, [2]⟩ ∧
      Read ((ToBytes ⟨1, 1, [2]⟩).1 ++ [9, 9]) =
        .res [⟨1, 1, [2]⟩] (some .unexpectedEOF) :=
  ⟨by decide,
    (claim_c3_amended ⟨1, 1, [2]⟩ (by decide) [9, 9] (by decide) (by decide)).1⟩

/-- C4: for a record whose length field equals its value's byte length,
`WriteObject` to the in-memory buffer emits exactly the type byte, the
four big-endian length bytes and the value bytes, in that order and
nothing else, with no error; against an arbitrary sink it propagates the
sink's error from whichever of the three writes fails first, and when all
writes succeed it returns `ErrTLVWrite` exactly when the count of value
bytes actually written differs from the length. -/
theorem claim_c4_writeRecord {σ : Type} (W : Writer σ) (s : σ) (o : Object)
    (acc : List Nat) (hwf : WFRec o) :
    WriteObject o acc = (acc ++ [o.typ] ++ int32Bytes o.len ++ o.val, none) ∧
      (∀ s1 n1 e, W.write s [o.typ] = (s1, n1, some e) →
        WriteObjectW W o s = (s1, some e)) ∧
      (∀ s1 n1 s2 n2 e, W.write s [o.typ] = (s1, n1, none) →
        W.write s1 (int32Bytes o.len) = (s2, n2, some e) →
        WriteObjectW W o s = (s2, some e)) ∧
      (∀ s1 n1 s2 n2 s3 n3 e, W.write s [o.typ] = (s1, n1, none) →
        W.write s1 (int32Bytes o.len) = (s2, n2, none) →
        W.write s2 o.val = (s3, n3, some e) →
        WriteObjectW W o s = (s3, some e)) ∧
      (∀ s1 n1 s2 n2 s3 n3, W.write s [o.typ] = (s1, n1, none) →
        W.write s1 (int32Bytes o.len) = (s2, n2, none) →
        W.write s2 o.val = (s3, n3, none) → n3 ≤ o.val.length →
        WriteObjectW W o s =
          (s3, if n3 = o.val.length then none else some .tlvWrite)) := by
  refine ⟨?_, ?_, ?_, ?_, ?_⟩
  · rw [WriteObject_wf hwf acc]
    simp [encTLV, List.append_assoc]
  · intro s1 n1 e hw
    simp only [WriteObjectW, hw]
  · intro s1 n1 s2 n2 e hw1 hw2
    simp only [WriteObjectW, hw1, hw2]
  · intro s1 n1 s2 n2 s3 n3 e hw1 hw2 hw3
    simp only [WriteObjectW, hw1, hw2, hw3]
  · intro s1 n1 s2 n2 s3 n3 hw1 hw2 hw3 hn3
    simp only [WriteObjectW, hw1, hw2, hw3]
    have hcond : (wrap32 n3 = o.len) ↔ (n3 = o.val.length) := by
      rw [wrap32_small (lt_of_le_of_lt hn3 hwf.2), hwf.1]
      exact Nat.cast_inj
    by_cases hc : n3 = o.val.length
    · rw [if_pos (hcond.mpr hc), if_pos hc]
    · rw [if_neg (fun hh => hc (hcond.mp hh)), if_neg hc]

/-- Witness for C4: the buffer case at record (1, 2, [5, 6]), and error
propagation from a sink whose first write fails. -/
theorem claim_c4_writeRecord_witness :
    WFRec ⟨1, 2, [5, 6]⟩ ∧
      WriteObject ⟨1, 2, [5, 6]⟩ [] = ([1, 0, 0, 0, 2, 5, 6], none) ∧
      WriteObjectW (⟨fun s _ => (s, 0, some GoErr.eof)⟩ : Writer (List Nat))
        ⟨1, 2, [5, 6]⟩ [] = ([], some .eof) :=
  ⟨by decide,
    ((claim_c4_writeRecord bufWriter ([] : List Nat) ⟨1, 2, [5, 6]⟩ []
        (by decide)).1).trans (by decide),
    (claim_c4_writeRecord (⟨fun s _ => (s, 0, some GoErr.eof)⟩ : Writer (List Nat))
        [] ⟨1, 2, [5, 6]⟩ [] (by decide)).2.1 [] 0 .eof rfl⟩

/-- C5: encoding a record built from an empty value yields exactly the 5
header bytes (type plus four zero length bytes), and decoding exactly
those 5 bytes succeeds with no error, producing a record with length 0 and
empty value — the zero-byte value read is not a short-read error. -/
theorem claim_c5_zero_length (typ : Nat) :
    New typ [] = some ⟨typ, 0, []⟩ ∧
      ToBytes ⟨typ, 0, []⟩ = ([typ, 0, 0, 0, 0], none) ∧
      (ToBytes ⟨typ, 0, []⟩).1.length = 5 ∧
      FromBytes [typ, 0, 0, 0, 0] = .ok ⟨typ, 0, []⟩ [] := by
  have hwf : WFRec ⟨typ, 0, []⟩ := ⟨by simp, by norm_num⟩
  have henc : encTLV ⟨typ, 0, []⟩ = [typ, 0, 0, 0, 0] := by
    simp [encTLV, int32Bytes, toU32]
  refine ⟨?_, ?_, ?_, ?_⟩
  · norm_num [New, wrap32]
  · rw [ToBytes_wf hwf, henc]
  · rw [ToBytes_wf hwf]
    simp [henc]
  · have hro := ReadObject_enc hwf []
    rw [List.append_nil, henc] at hro
    exact hro

/-- C6: `Get` returns the earliest record of the requested type when one
exists and `ErrTypeNotFound` when none does; `GetAll` returns exactly the
matching records in insertion order, and the empty list — never an
error — when none match. -/
theorem claim_c6_get_getAll (l : List Object) (t : Nat) :
    ((∀ o ∈ l, o.typ ≠ t) → Get l t = .error .typeNotFound) ∧
      (∀ pre o post, l = pre ++ o :: post → o.typ = t →
        (∀ x ∈ pre, x.typ ≠ t) → Get l t = .ok o) ∧
      GetAll l t = l.filter (fun o => o.typ == t) ∧
      ((∀ o ∈ l, o.typ ≠ t) → GetAll l t = []) := by
  refine ⟨fun h => Get_not_found h, ?_, GetAll_filter l t, ?_⟩
  · intro pre o post hl ho hpre
    subst hl
    exact Get_first ho hpre
  · intro h
    rw [GetAll_filter]
    refine List.filter_eq_nil_iff.mpr ?_
    intro a ha
    simp only [beq_iff_eq]
    exact h a ha

/-- Witness for C6 at the list [type 1, type 2, type 1, type 3] of the
spec's example shape. -/
theorem claim_c6_get_getAll_witness :
    Get [(⟨1, 1, [10]⟩ : Object), ⟨2, 0, []⟩, ⟨1, 1, [11]⟩, ⟨3, 0, []⟩] 1 =
        .ok ⟨1, 1, [10]⟩ ∧
      GetAll [(⟨1, 1, [10]⟩ : Object), ⟨2, 0, []⟩, ⟨1, 1, [11]⟩, ⟨3, 0, []⟩] 1 =
        [⟨1, 1, [10]⟩, ⟨1, 1, [11]⟩] ∧
      Get [(⟨1, 1, [10]⟩ : Object), ⟨2, 0, []⟩, ⟨1, 1, [11]⟩, ⟨3, 0, []⟩] 9 =
        .error .typeNotFound :=
  ⟨(claim_c6_get_getAll _ 1).2.1 [] ⟨1, 1, [10]⟩
      [⟨2, 0, []⟩, ⟨1, 1, [11]⟩, ⟨3, 0, []⟩] rfl rfl (by simp),
    ((claim_c6_get_getAll _ 1).2.2.1).trans (by decide),
    (claim_c6_get_getAll _ 9).1 (by decide)⟩

/-- C7: `Remove` deletes every record whose type matches, returns exactly
the number deleted, and keeps the remaining records in their original
relative order (the result is the order-preserving filter of the
non-matching records, and the count is the number of matching ones). -/
theorem claim_c7_remove (l : List Object) (t : Nat) :
    Remove l t = (l.filter (fun o => !(o.typ == t)),
      (l.filter (fun o => o.typ == t)).length) := by
  rw [Remove, removeAllBy_filter]

/-- Witness for C7 at the spec's example [A, B, A, A]: three records
removed, [B] left. -/
theorem claim_c7_remove_witness :
    Remove [(⟨1, 1, [0]⟩ : Object), ⟨2, 0, []⟩, ⟨1, 1, [1]⟩, ⟨1, 0, []⟩] 1 =
      ([⟨2, 0, []⟩], 3) :=
  (claim_c7_remove
      [(⟨1, 1, [0]⟩ : Object), ⟨2, 0, []⟩, ⟨1, 1, [1]⟩, ⟨1, 0, []⟩] 1).trans
    (by decide)

/-- C8: `RemoveObject` deletes exactly the records structurally equal to
the given record — type, length and value must all agree, not type
alone — returns the number deleted, and leaves records of the same type
but different value in place and in their original relative order. -/
theorem claim_c8_removeObject (l : List Object) (r : Object) :
    RemoveObject l (some r) =
        (l.filter (fun o => !Equal (some o) (some r)),
          (l.filter (fun o => Equal (some o) (some r))).length) ∧
      (∀ o : Object, Equal (some o) (some r) = true ↔
        o.typ = r.typ ∧ o.len = r.len ∧ o.val = r.val) ∧
      (∀ o ∈ l, o.typ = r.typ → o.val ≠ r.val →
        o ∈ (RemoveObject l (some r)).1) := by
  have hfil := removeAllBy_filter (fun o => Equal (some o) (some r)) l
  refine ⟨?_, ?_, ?_⟩
  · rw [RemoveObject, hfil]
  · intro o
    simp [Equal]
    tauto
  · intro o ho htyp hval
    rw [RemoveObject, hfil]
    simp only
    rw [List.mem_filter]
    refine ⟨ho, ?_⟩
    simp [Equal, hval]

/-- Witness for C8: two type-1 records with different values; removing one
leaves the other. -/
theorem claim_c8_removeObject_witness :
    (RemoveObject [(⟨1, 1, [1]⟩ : Object), ⟨1, 1, [2]⟩] (some ⟨1, 1, [1]⟩)).1 =
        [⟨1, 1, [2]⟩] ∧
      (RemoveObject [(⟨1, 1, [1]⟩ : Object), ⟨1, 1, [2]⟩]
          (some ⟨1, 1, [1]⟩)).2 = 1 ∧
      (⟨1, 1, [2]⟩ : Object) ∈
        (RemoveObject [(⟨1, 1, [1]⟩ : Object), ⟨1, 1, [2]⟩]
          (some ⟨1, 1, [1]⟩)).1 := by
  have h := (claim_c8_removeObject [(⟨1, 1, [1]⟩ : Object), ⟨1, 1, [2]⟩]
    ⟨1, 1, [1]⟩).1
  refine ⟨?_, ?_, ?_⟩
  · rw [h]
    decide
  · rw [h]
    decide
  · exact (claim_c8_removeObject [(⟨1, 1, [1]⟩ : Object), ⟨1, 1, [2]⟩]
      ⟨1, 1, [1]⟩).2.2 ⟨1, 1, [2]⟩ (by simp) rfl (by decide)

/-- C9: `ReadObject` performs no validation of the decoded length before
sizing the value buffer: on an input whose 4-byte length field decodes to
the negative signed value -1, it does not return a decode error but
reaches the invalid negative-sized allocation (the modelled `make`
panic). -/
theorem claim_c9_negative_length :
    sint32 255 255 255 255 < 0 ∧
      FromBytes [1, 255, 255, 255, 255] = .panicked := by
  constructor
  · decide
  · decide

/-- C10: for every record whose length field equals its value's byte
length — which holds for every record built by `New` and every record
decoded without error by `ReadObject` from a byte stream — `ToBytes`
returns a nil error: in-memory encoding cannot fail, its short-write
branch being unreachable under the invariant. -/
theorem claim_c10_encode_total :
    (∀ o : Object, o.len = (o.val.length : Int) → o.val.length < 2147483648 →
      (ToBytes o).2 = none) ∧
      (∀ (typ : Nat) (val : List Nat) (o : Object), New typ val = some o →
        o.len = (o.val.length : Int) ∧ (ToBytes o).2 = none) ∧
      (∀ (s : List Nat) (o : Object) (rest : List Nat), (∀ b ∈ s, b < 256) →
        ReadObject s = .ok o rest →
        o.len = (o.val.length : Int) ∧ (ToBytes o).2 = none) := by
  have key : ∀ o : Object, WFRec o → (ToBytes o).2 = none := by
    intro o h
    rw [ToBytes_wf h]
  refine ⟨fun o h1 h2 => key o ⟨h1, h2⟩, ?_, ?_⟩
  · intro typ val o h
    have hw := New_wf h
    exact ⟨hw.1, key o hw⟩
  · intro s o rest hb h
    have hw := ReadObject_ok_wf hb h
    exact ⟨hw.1, key o hw⟩

/-- Witness for C10 at record (1, 1, [7]). -/
theorem claim_c10_encode_total_witness :
    ((⟨1, 1, [7]⟩ : Object).len = ((⟨1, 1, [7]⟩ : Object).val.length : Int)) ∧
      (ToBytes ⟨1, 1, [7]⟩).2 = none :=
  ⟨by decide, claim_c10_encode_total.1 ⟨1, 1, [7]⟩ (by decide) (by decide)⟩

end Tlv
